import Mathlib

/-!
Verification development for the release-aggregator repository.

/-! ### Definitions: the shallow embedding of the program -/

The Rust sources are shallowly embedded as Lean definitions:

* strings are modelled as Lean `String`s, with character-level operations on
  `List Char` (the commit messages, shas and version tags handled by the
  program are ASCII, so Rust's byte/char distinction and Unicode case
  mapping collapse to the ASCII case);
* `chrono::DateTime<Utc>` values are opaque to the program except for
  RFC3339 (de)serialization and `%Y-%m-%d` formatting, so a timestamp is
  modelled as a wrapper around its RFC3339 text, and `%Y-%m-%d` formatting
  takes the first ten characters;
* fallible operations return `Except`/`Option`; an `anyhow::Result` is
  `Except GHError`; a Rust panic (out-of-bounds slice) is `Option.none`;
* the remote GitHub collaborator is a record of pure response functions,
  matching the interface the core calls.
-/

/-- RFC3339 textual timestamp standing in for `chrono::DateTime<Utc>`. -/
structure DateTime where
  rfc3339 : String
deriving DecidableEq

/-- Models `DateTime::format("%Y-%m-%d")`: the date part of an RFC3339 text. -/
def DateTime.formatYmd (d : DateTime) : String :=
  String.mk (d.rfc3339.toList.take 10)

/-- Commit classification tags, from `commit_analyzer.rs` `enum CommitType`. -/
inductive CommitType where
  | Feature | Fix | Documentation | Performance | Refactor
  | Test | Build | CI | Chore | Style | Other
deriving DecidableEq

/-- Display strings of `impl fmt::Display for CommitType`. -/
def displayCommitType : CommitType → String
  | .Feature => "✨ Features"
  | .Fix => "🐛 Bug Fixes"
  | .Documentation => "📚 Documentation"
  | .Performance => "⚡ Performance"
  | .Refactor => "♻️ Refactoring"
  | .Test => "✅ Tests"
  | .Build => "📦 Build System"
  | .CI => "👷 CI/CD"
  | .Chore => "🔧 Chores"
  | .Style => "💄 Style"
  | .Other => "📝 Other Changes"

/-- From `github/types.rs` `struct CommitAuthor`. -/
structure CommitAuthor where
  name : String
  email : String
  username : Option String
deriving DecidableEq

/-- From `github/types.rs` `struct CommitInfo` (a raw commit). -/
structure CommitInfo where
  sha : String
  message : String
  author : CommitAuthor
  date : DateTime
deriving DecidableEq

/-- From `commit_analyzer.rs` `struct EnrichedCommit`. -/
structure EnrichedCommit where
  sha : String
  message : String
  author : String
  date : DateTime
  commit_type : Option CommitType
  breaking : Bool
  pr_number : Option Nat
  issues : List Nat
deriving DecidableEq

/-- From `release_fetcher.rs` `struct ReleaseStats`. -/
structure ReleaseStats where
  commit_count : Nat
  contributors : List String
  breaking_changes : Nat
  features : Nat
  fixes : Nat
deriving DecidableEq

/-- From `release_fetcher.rs` `enum ComponentStatus`. -/
inductive ComponentStatus where
  | Released (current_version : String) (previous_version : Option String)
      (release_date : DateTime) (commits : List EnrichedCommit)
      (release_notes : Option String) (stats : ReleaseStats)
  | NoRelease (latest_version : Option String) (latest_date : Option DateTime)
deriving DecidableEq

/-- From `release_fetcher.rs` `struct ComponentRelease`. -/
structure ComponentRelease where
  repository : String
  status : ComponentStatus
deriving DecidableEq

/-- From `release_fetcher.rs` `struct ReleaseSummary`. -/
structure ReleaseSummary where
  total_repos : Nat
  updated_repos : Nat
  total_commits : Nat
  contributors : List String
deriving DecidableEq

/-- From `release_fetcher.rs` `struct AggregatedRelease`. -/
structure AggregatedRelease where
  version : String
  date : DateTime
  components : List ComponentRelease
  summary : ReleaseSummary
deriving DecidableEq

/-- From `release_fetcher.rs` `struct AggregatorConfig`. -/
structure AggregatorConfig where
  include_prs : Bool
  include_issues : Bool
  categorize_commits : Bool
  template_path : Option String
deriving DecidableEq

/-- Whether a status is the `Released` variant. -/
def ComponentStatus.isReleased : ComponentStatus → Bool
  | .Released .. => true
  | .NoRelease .. => false

/-- Commit list of a status (`Released` carries one, `NoRelease` none). -/
def ComponentStatus.commitsOf : ComponentStatus → List EnrichedCommit
  | .Released _ _ _ commits _ _ => commits
  | .NoRelease _ _ => []

/-- Contributor list of a status (from its stats; `NoRelease` has none). -/
def ComponentStatus.contribsOf : ComponentStatus → List String
  | .Released _ _ _ _ _ stats => stats.contributors
  | .NoRelease _ _ => []

/-- Drops one trailing carriage return, as `str::lines` does on a line that
was terminated by a newline. -/
def stripTrailingCR (l : List Char) : List Char :=
  if l.getLast? = some '\r' then l.dropLast else l

/-- Models `message.lines().next().unwrap_or("")`: the characters before the
first newline; a carriage return immediately before that newline is dropped,
while a trailing carriage return of a string with no newline is kept. -/
def firstLineOf (l : List Char) : List Char :=
  let pre := l.takeWhile (· ≠ '\n')
  if pre.length < l.length then stripTrailingCR pre else pre

/-- Models `str::contains(pat)` for a literal pattern: infix test. -/
def hasSub (p : List Char) : List Char → Bool
  | [] => p.isEmpty
  | c :: rest => p.isPrefixOf (c :: rest) || hasSub p rest

/-- Fuel-driven worker for `trimTok`; the fuel (initially the string length)
bounds the number of pattern removals. -/
def trimTokFuel : Nat → List Char → List Char → List Char
  | 0, _, s => s
  | n + 1, p, s =>
    if (!p.isEmpty) && p.isPrefixOf s then trimTokFuel n p (s.drop p.length)
    else s

/-- Models `str::trim_start_matches(pat)` for a literal pattern: repeatedly
removes the pattern while it is a prefix. -/
def trimTok (p : String) (s : List Char) : List Char :=
  trimTokFuel s.length p.toList s

/-- Models `str::trim()` (whitespace removed from both ends). -/
def trimWs (l : List Char) : List Char :=
  ((l.dropWhile Char.isWhitespace).reverse.dropWhile Char.isWhitespace).reverse

/-- Models `CommitAnalyzer::parse_commit_message`: the commit type from the
ordered prefix checks on the lower-cased first line, and the breaking flag. -/
def parseCommitMessage (message : String) : Option CommitType × Bool :=
  let lower := message.toList.map Char.toLower
  let fl := firstLineOf lower
  let breaking := hasSub "breaking".toList fl || hasSub "!:".toList fl ||
    hasSub "BREAKING CHANGE".toList message.toList
  let commit_type :=
    if "feat".toList.isPrefixOf fl || "feature".toList.isPrefixOf fl then
      some CommitType.Feature
    else if "fix".toList.isPrefixOf fl || "bugfix".toList.isPrefixOf fl then
      some CommitType.Fix
    else if "docs".toList.isPrefixOf fl || "documentation".toList.isPrefixOf fl then
      some CommitType.Documentation
    else if "perf".toList.isPrefixOf fl || "performance".toList.isPrefixOf fl then
      some CommitType.Performance
    else if "refactor".toList.isPrefixOf fl then
      some CommitType.Refactor
    else if "test".toList.isPrefixOf fl || "tests".toList.isPrefixOf fl then
      some CommitType.Test
    else if "build".toList.isPrefixOf fl then
      some CommitType.Build
    else if "ci".toList.isPrefixOf fl || "cd".toList.isPrefixOf fl then
      some CommitType.CI
    else if "chore".toList.isPrefixOf fl then
      some CommitType.Chore
    else if "style".toList.isPrefixOf fl then
      some CommitType.Style
    else
      none
  (commit_type, breaking)

/-- The token list of `CommitAnalyzer::clean_message`, in the exact order the
`trim_start_matches` calls are chained in the source. -/
def cleanTokens : List String :=
  ["feat", "feature", "fix", "bugfix", "docs", "documentation", "perf",
   "performance", "refactor", "test", "tests", "build", "ci", "cd",
   "chore", "style"]

/-- Capitalization step of `clean_message`: uppercase the first character. -/
def capitalizeFirst (l : List Char) : String :=
  match l with
  | [] => ""
  | c :: rest => String.mk (c.toUpper :: rest)

/-- Models `CommitAnalyzer::clean_message`: first line, leading non-alphabetic
characters dropped, every token of `cleanTokens` trim-stripped in order, then
leading colons, leading opening parentheses and leading closing parentheses
stripped, whitespace trimmed, first letter capitalized. -/
def cleanMessage (message : String) : String :=
  let fl := firstLineOf message.toList
  let l0 := fl.dropWhile (fun c => !c.isAlpha)
  let l1 := cleanTokens.foldl (fun s t => trimTok t s) l0
  let l2 := trimTok ":" l1
  let l3 := trimTok "(" l2
  let l4 := trimTok ")" l3
  capitalizeFirst (trimWs l4)

/-- Numeric value of a digit run (the `str::parse::<u64>` digits). -/
def digitsVal (l : List Char) : Nat :=
  l.foldl (fun a c => a * 10 + (c.toNat - 48)) 0

/-- Fuel-driven worker for `scanIssues`; the fuel (initially the string
length) bounds the scan. -/
def scanIssuesFuel : Nat → List Char → List Nat
  | 0, _ => []
  | _, [] => []
  | n + 1, c :: rest =>
    if c = '#' ∧ (rest.head?.elim false Char.isDigit) then
      let ds := rest.takeWhile Char.isDigit
      let v := digitsVal ds
      (if v < 2 ^ 64 then [v] else []) ++ scanIssuesFuel n (rest.dropWhile Char.isDigit)
    else scanIssuesFuel n rest

/-- Models the match set of the issue regex
`(?:(?:fix|fixes|fixed|close|closes|closed|resolve|resolves|resolved)\s+)?#(\d+)`
scanned over the message by `captures_iter`: every maximal digit run directly
following a `#` (the optional keyword group does not constrain the match set);
runs overflowing `u64` fail `parse` and are skipped. -/
def scanIssues (l : List Char) : List Nat :=
  scanIssuesFuel l.length l

/-- Models Rust `Vec::sort`/`sort_unstable` on a list over a linear order:
by antisymmetry the sorted rearrangement of a list is unique, so any sorting
function gives the value the Rust sort produces. -/
def sortLe {α : Type} [LinearOrder α] (l : List α) : List α :=
  l.insertionSort (· ≤ ·)

/-- Code-point lexicographic comparison of character lists; on the ASCII
strings the program handles this coincides with Rust's byte-lexicographic
`Ord` for `String` (UTF-8 byte order equals scalar-value order). -/
def lexLeb : List Char → List Char → Bool
  | [], _ => true
  | _ :: _, [] => false
  | a :: as, b :: bs =>
    if a.toNat < b.toNat then true
    else if b.toNat < a.toNat then false
    else lexLeb as bs

/-- The string order used to model `Vec::<String>::sort`. -/
def strLe (a b : String) : Prop :=
  lexLeb a.toList b.toList = true

instance : DecidableRel strLe :=
  fun a b => Bool.decEq (lexLeb a.toList b.toList) true

/-- Models `Vec::<String>::sort` (contributor lists): by antisymmetry of the
order the sorted rearrangement is unique, so any sorting function gives the
value the Rust sort produces. -/
def sortStr (l : List String) : List String :=
  l.insertionSort strLe

/-- Models `Vec::dedup`: removes consecutive duplicate elements. -/
def dedupAdj {α : Type} [DecidableEq α] : List α → List α
  | [] => []
  | [a] => [a]
  | a :: b :: t => if a = b then dedupAdj (b :: t) else a :: dedupAdj (b :: t)

/-- Models `CommitAnalyzer::extract_issues`: scan, sort ascending, dedup. -/
def extractIssues (message : String) : List Nat :=
  dedupAdj (sortLe (scanIssues message.toList))

/-- Models the first match of the PR regex `\(#(\d+)\)` and its `parse`:
the first `(#<digits>)` group; an overflowing digit run yields `none`. -/
def scanPr : List Char → Option Nat
  | '(' :: '#' :: rest =>
    let ds := rest.takeWhile Char.isDigit
    if (!ds.isEmpty) && ((rest.drop ds.length).head? = some ')') then
      if digitsVal ds < 2 ^ 64 then some (digitsVal ds) else none
    else scanPr ('#' :: rest)
  | _ :: rest => scanPr rest
  | [] => none

/-- Models `CommitAnalyzer::extract_pr_number`. -/
def extractPrNumber (message : String) : Option Nat :=
  scanPr message.toList

/-- Models `CommitAnalyzer::analyze_single_commit`. -/
def analyzeSingleCommit (c : CommitInfo) : EnrichedCommit :=
  { sha := c.sha
    message := cleanMessage c.message
    author := c.author.username.getD c.author.name
    date := c.date
    commit_type := (parseCommitMessage c.message).1
    breaking := (parseCommitMessage c.message).2
    pr_number := extractPrNumber c.message
    issues := extractIssues c.message }

/-- Models `CommitAnalyzer::analyze_commits`. -/
def analyzeCommits (commits : List CommitInfo) : List EnrichedCommit :=
  commits.map analyzeSingleCommit

/-- Models the content of the map built by `group_commits_by_type` (both in
`commit_analyzer.rs` and `changelog_generator.rs`): the entry at key `t`
holds, in traversal order, the commits typed `t`; untyped commits are in no
entry. -/
def groupCommitsByType (commits : List EnrichedCommit) (t : CommitType) :
    List EnrichedCommit :=
  commits.filter (fun c => c.commit_type = some t)

/-- Modelled from the spec: the fixed, ordered prefix table of the type
detection rules (feat/feature to Feature, ..., style to Style). -/
def typeTable : List (List String × CommitType) :=
  [(["feat", "feature"], .Feature),
   (["fix", "bugfix"], .Fix),
   (["docs", "documentation"], .Documentation),
   (["perf", "performance"], .Performance),
   (["refactor"], .Refactor),
   (["test", "tests"], .Test),
   (["build"], .Build),
   (["ci", "cd"], .CI),
   (["chore"], .Chore),
   (["style"], .Style)]

/-- Modelled from the spec: first matching prefix of the table wins. -/
def firstMatch (fl : List Char) : List (List String × CommitType) → Option CommitType
  | [] => none
  | (toks, t) :: rest =>
    if toks.any (fun p => p.toList.isPrefixOf fl) then some t
    else firstMatch fl rest

/-- The lower-cased first line of a message, the input of type detection. -/
def lowerFirstLine (msg : String) : List Char :=
  firstLineOf (msg.toList.map Char.toLower)

/-- Modelled from the claim's words for the cleaning step: first line, strip
leading non-alphabetic characters, strip one known type prefix token if
present, strip a leading colon, strip leading and trailing parentheses, trim
whitespace, capitalize the first letter. -/
def cleanMessageSpec (message : String) : String :=
  let fl := firstLineOf message.toList
  let l0 := fl.dropWhile (fun c => !c.isAlpha)
  let l1 := match cleanTokens.find? (fun t => t.toList.isPrefixOf l0) with
    | some t => l0.drop t.length
    | none => l0
  let l2 := if l1.head? = some ':' then l1.drop 1 else l1
  let l3 := l2.dropWhile (· = '(')
  let l4 := (l3.reverse.dropWhile (· = ')')).reverse
  capitalizeFirst (trimWs l4)

/-- The amended cleaning procedure: the tokens of the fixed list are each
trim-stripped in order (each repeatedly while it remains a prefix, so several
tokens may be removed), then leading colons, then leading opening parentheses,
then leading closing parentheses are trim-stripped (trailing parentheses are
never removed), then whitespace is trimmed and the first letter capitalized. -/
def cleanMessageAmended (message : String) : String :=
  capitalizeFirst (trimWs ((cleanTokens ++ [":", "(", ")"]).foldl
    (fun s t => trimTok t s)
    ((firstLineOf message.toList).dropWhile (fun c => !c.isAlpha))))

/-- A raw commit whose message exposes the parenthesis handling of
`clean_message`. -/
def cexCommit : CommitInfo :=
  { sha := "abcdef1234567890"
    message := "feat:(scope)"
    author := { name := "Ada", email := "", username := some "ada" }
    date := ⟨"2024-01-01T00:00:00Z"⟩ }

/-- An enriched commit with no classification tag, a concrete untyped
commit. -/
def untypedDemo : EnrichedCommit :=
  { sha := "abc1234def"
    message := "Hello world"
    author := "ada"
    date := ⟨"2024-01-01T00:00:00Z"⟩
    commit_type := none
    breaking := false
    pr_number := none
    issues := [] }

/-- Errors of the remote API: a GitHub API error carrying a message, or any
other transport error (the `octocrab::Error` cases the code distinguishes). -/
inductive GHError where
  | github (message : String)
  | other (message : String)
deriving DecidableEq

/-- A release as the engine consumes it (`octocrab models::repos::Release`):
tag name, optional name and body, optional creation and publication dates. -/
structure Release where
  tag_name : String
  name : Option String
  body : Option String
  created_at : Option DateTime
  published_at : Option DateTime
deriving DecidableEq

/-- Models `source.message.contains("Not Found")`. -/
def isNotFoundMsg (m : String) : Bool :=
  hasSub "Not Found".toList m.toList

/-- Models the match in `GitHubClient::get_release` / `get_latest_release`:
a GitHub error whose message contains "Not Found" becomes `Ok(None)`, a
success becomes `Ok(Some(..))`, any other error propagates. -/
def mapNotFound : Except GHError Release → Except GHError (Option Release)
  | .ok rel => .ok (some rel)
  | .error (.github m) =>
    if isNotFoundMsg m then .ok none else .error (.github m)
  | .error (.other m) => .error (.other m)

/-- The author object of a listed commit (`commit.author`, with `login`). -/
structure RepoCommitAuthor where
  login : String
deriving DecidableEq

/-- The inner git author of a listed commit (`commit.commit.author`). -/
structure GitUserTime where
  date : Option DateTime
deriving DecidableEq

/-- The inner git data of a listed commit (`commit.commit`). -/
structure RepoCommitData where
  message : String
  author : Option GitUserTime
deriving DecidableEq

/-- A commit as returned by the `list_commits` API page. -/
structure RepoCommit where
  sha : String
  commit : RepoCommitData
  author : Option RepoCommitAuthor
deriving DecidableEq

/-- Models the per-commit conversion in `get_commits_between` /
`get_all_commits_until`: login preferred, "Unknown" fallback, empty email,
date defaulted to the current instant. -/
def convertRepoCommit (now : DateTime) (c : RepoCommit) : CommitInfo :=
  { sha := c.sha
    message := c.commit.message
    author := { name := (c.author.map (fun a => a.login)).getD "Unknown"
                email := ""
                username := c.author.map (fun a => a.login) }
    date := (c.commit.author.bind (fun a => a.date)).getD now }

/-- Models the pure core of `GitHubClient::get_commits_between`, given the
fetched commit pages of the `to` and `from` refs: keep the `to` commits whose
sha is not in the sha set of the `from` commits, in `to` traversal order. -/
def getCommitsBetween (now : DateTime) (toItems fromItems : List RepoCommit) :
    List CommitInfo :=
  let fromShas := fromItems.map (fun c => c.sha)
  (toItems.filter (fun c => !(fromShas.contains c.sha))).map
    (convertRepoCommit now)

/-- From `github/types.rs` `struct PullRequest`. -/
structure PullRequest where
  number : Nat
  title : String
  body : Option String
  merged_at : Option DateTime
  merge_commit_sha : Option String
deriving DecidableEq

/-- The collaborator interface the engine calls (`GitHubClient` methods used
by `ReleaseAggregator`), as a record of pure response functions. -/
structure Client where
  getRelease : String → String → Except GHError (Option Release)
  getLatestRelease : String → Except GHError (Option Release)
  getPreviousRelease : String → Release → Except GHError (Option Release)
  getCommitsBetween : String → String → String → Except GHError (List CommitInfo)
  getAllCommitsUntil : String → String → Except GHError (List CommitInfo)
  getPullRequestsForCommits : String → List String → Except GHError (List PullRequest)

/-- Models the non-categorizing enrichment branch of `process_repository`:
raw message kept, no type, not breaking, no PR, no issues. -/
def plainEnrich (c : CommitInfo) : EnrichedCommit :=
  { sha := c.sha
    message := c.message
    author := c.author.username.getD c.author.name
    date := c.date
    commit_type := none
    breaking := false
    pr_number := none
    issues := [] }

/-- Models the PR back-fill loop of `process_repository`: every PR whose
merge commit sha equals the commit's sha overwrites `pr_number`. -/
def mergePrs (prs : List PullRequest) (c : EnrichedCommit) : EnrichedCommit :=
  prs.foldl (fun acc pr =>
    match pr.merge_commit_sha with
    | some m => if m = acc.sha then { acc with pr_number := some pr.number }
                else acc
    | none => acc) c

/-- Stats of a `Released` status, absent for `NoRelease`. -/
def ComponentStatus.statsOf : ComponentStatus → Option ReleaseStats
  | .Released _ _ _ _ _ stats => some stats
  | .NoRelease _ _ => none

/-- Models `ReleaseAggregator::process_repository`. -/
def processRepository (client : Client) (cfg : AggregatorConfig)
    (now : DateTime) (repo version : String) :
    Except GHError ComponentRelease :=
  match client.getRelease repo version with
  | .error e => .error e
  | .ok (some rel) =>
    match client.getPreviousRelease repo rel with
    | .error e => .error e
    | .ok prevRelease =>
      match (match prevRelease with
             | some prev => client.getCommitsBetween repo prev.tag_name rel.tag_name
             | none => client.getAllCommitsUntil repo rel.tag_name) with
      | .error e => .error e
      | .ok commits =>
        let enriched := if cfg.categorize_commits then analyzeCommits commits
          else commits.map plainEnrich
        match (if cfg.include_prs then
                match client.getPullRequestsForCommits repo
                    (enriched.map (fun c => c.sha)) with
                | .error e => .error e
                | .ok prs => .ok (enriched.map (mergePrs prs))
              else .ok enriched : Except GHError (List EnrichedCommit)) with
        | .error e => .error e
        | .ok enriched2 =>
          let stats : ReleaseStats :=
            { commit_count := enriched2.length
              contributors := dedupAdj (sortStr (enriched2.map (fun c => c.author)))
              breaking_changes := (enriched2.filter (fun c => c.breaking)).length
              features := (enriched2.filter
                (fun c => c.commit_type = some CommitType.Feature)).length
              fixes := (enriched2.filter
                (fun c => c.commit_type = some CommitType.Fix)).length }
          .ok { repository := repo
                status := ComponentStatus.Released rel.tag_name
                  (prevRelease.map (fun r => r.tag_name))
                  (rel.created_at.getD now) enriched2 rel.body stats }
  | .ok none =>
    match client.getLatestRelease repo with
    | .error e => .error e
    | .ok latest =>
      .ok { repository := repo
            status := ComponentStatus.NoRelease
              (latest.map (fun r => r.tag_name))
              (latest.bind (fun r => r.created_at)) }

/-- The repository loop of `ReleaseAggregator::aggregate`, with the mutable
accumulators (components, all contributors, total commits, updated repos)
threaded explicitly. -/
def aggLoop (client : Client) (cfg : AggregatorConfig) (now : DateTime)
    (version : String) :
    List String → List ComponentRelease × List String × Nat × Nat →
    Except GHError (List ComponentRelease × List String × Nat × Nat)
  | [], acc => .ok acc
  | repo :: rest, (comps, contribs, tc, ur) =>
    match processRepository client cfg now repo version with
    | .error e => .error e
    | .ok comp =>
      match comp.status with
      | .Released _ _ _ commits _ stats =>
        aggLoop client cfg now version rest
          (comps ++ [comp], contribs ++ stats.contributors,
           tc + commits.length, ur + 1)
      | .NoRelease _ _ =>
        aggLoop client cfg now version rest (comps ++ [comp], contribs, tc, ur)

/-- Models `ReleaseAggregator::aggregate`. -/
def aggregate (client : Client) (cfg : AggregatorConfig) (now : DateTime)
    (version : String) (repos : List String) :
    Except GHError AggregatedRelease :=
  match aggLoop client cfg now version repos ([], [], 0, 0) with
  | .error e => .error e
  | .ok (comps, contribs, tc, ur) =>
    .ok { version := version
          date := now
          components := comps
          summary := { total_repos := repos.length
                       updated_repos := ur
                       total_commits := tc
                       contributors := dedupAdj (sortStr contribs) } }

/-- A listed commit with the given sha, for the diff example. -/
def mkRC (sha : String) : RepoCommit :=
  { sha := sha
    commit := { message := "m " ++ sha, author := none }
    author := some { login := "dev" } }

/-- The `from`-ref commit page of the diff example: shas a, b, c. -/
def demoFrom : List RepoCommit := [mkRC "a", mkRC "b", mkRC "c"]

/-- The `to`-ref commit page of the diff example: shas a, b, c, d, e. -/
def demoTo : List RepoCommit :=
  [mkRC "a", mkRC "b", mkRC "c", mkRC "d", mkRC "e"]

/-- A fixed instant standing for `Utc::now()`. -/
def demoNow : DateTime := ⟨"2024-06-01T00:00:00Z"⟩

/-- The latest release of the C6 scenario: v1.9.0 created 2024-01-01. -/
def relV19 : Release :=
  { tag_name := "v1.9.0"
    name := none
    body := none
    created_at := some ⟨"2024-01-01T00:00:00Z"⟩
    published_at := none }

/-- A collaborator with no release for the requested tag and v1.9.0 as the
latest release. -/
def client6 : Client :=
  { getRelease := fun _ _ => .ok none
    getLatestRelease := fun _ => .ok (some relV19)
    getPreviousRelease := fun _ _ => .ok none
    getCommitsBetween := fun _ _ _ => .ok []
    getAllCommitsUntil := fun _ _ => .ok []
    getPullRequestsForCommits := fun _ _ => .ok [] }

/-- The default feature toggles of the generate command. -/
def cfgDefault : AggregatorConfig :=
  { include_prs := false
    include_issues := false
    categorize_commits := true
    template_path := none }

/-- The released v2.0.0 of the concrete scenarios. -/
def relV20 : Release :=
  { tag_name := "v2.0.0"
    name := none
    body := some "Release notes text"
    created_at := some ⟨"2024-05-01T00:00:00Z"⟩
    published_at := none }

/-- First raw commit of the concrete scenarios. -/
def rawA : CommitInfo :=
  { sha := "aaaaaaa1111"
    message := "feat: add X (#1)"
    author := { name := "Alice A", email := "", username := some "alice" }
    date := ⟨"2024-04-30T00:00:00Z"⟩ }

/-- Second raw commit of the concrete scenarios. -/
def rawB : CommitInfo :=
  { sha := "bbbbbbb2222"
    message := "fix: bug Y, closes #9"
    author := { name := "Bob B", email := "", username := none }
    date := ⟨"2024-04-29T00:00:00Z"⟩ }

/-- A collaborator with v2.0.0 released, no predecessor, two raw commits. -/
def client10 : Client :=
  { getRelease := fun _ _ => .ok (some relV20)
    getLatestRelease := fun _ => .ok (some relV20)
    getPreviousRelease := fun _ _ => .ok none
    getCommitsBetween := fun _ _ _ => .ok [rawA, rawB]
    getAllCommitsUntil := fun _ _ => .ok [rawA, rawB]
    getPullRequestsForCommits := fun _ _ => .ok [] }

/-- Feature toggles with commit categorization switched off. -/
def cfgPlain : AggregatorConfig :=
  { include_prs := false
    include_issues := false
    categorize_commits := false
    template_path := none }

/-- The component the engine produces in the non-categorizing scenario. -/
def comp10 : ComponentRelease :=
  { repository := "frontend"
    status := ComponentStatus.Released "v2.0.0" none ⟨"2024-05-01T00:00:00Z"⟩
      ([rawA, rawB].map plainEnrich) (some "Release notes text")
      { commit_count := 2
        contributors := ["Bob B", "alice"]
        breaking_changes := 0
        features := 0
        fixes := 0 } }

/-- A collaborator where `frontend` has a v2.0.0 release with two commits and
any other repository has no release. -/
def client1 : Client :=
  { getRelease := fun repo _ =>
      if repo = "frontend" then .ok (some relV20) else .ok none
    getLatestRelease := fun _ => .ok (some relV19)
    getPreviousRelease := fun _ _ => .ok none
    getCommitsBetween := fun _ _ _ => .ok [rawA, rawB]
    getAllCommitsUntil := fun _ _ => .ok [rawA, rawB]
    getPullRequestsForCommits := fun _ _ => .ok [] }

instance : Inhabited AggregatedRelease :=
  ⟨{ version := ""
     date := ⟨""⟩
     components := []
     summary := { total_repos := 0, updated_repos := 0, total_commits := 0,
                  contributors := [] } }⟩

/-- The aggregate document of the two-repository scenario (one released
repository, one without the tag). -/
def agg1 : AggregatedRelease :=
  (aggregate client1 cfgDefault demoNow "v2.0.0" ["frontend", "docs"]).toOption.getD
    default

/-- Option-valued traversal: fails when any element fails. -/
def traverseOpt {α β : Type} (f : α → Option β) : List α → Option (List β)
  | [] => some []
  | a :: rest =>
    match f a with
    | none => none
    | some b =>
      match traverseOpt f rest with
      | none => none
      | some bs => some (b :: bs)

/-- Models the slice `&sha[..7]`: the 7-character short sha, or a panic
(`none`) when the sha is shorter than 7. -/
def shortSha (s : String) : Option String :=
  if 7 ≤ s.toList.length then some (String.mk (s.toList.take 7)) else none

/-- One bullet line `- {message} ([`{short sha}`])` of the fallback
formatter. -/
def commitLine (c : EnrichedCommit) : Option String :=
  match shortSha c.sha with
  | none => none
  | some s7 => some ("- " ++ c.message ++ " ([`" ++ s7 ++ "`])\n")

/-- The bullet list of a commit sequence. -/
def renderCommitList (cs : List EnrichedCommit) : Option String :=
  match traverseOpt commitLine cs with
  | none => none
  | some ls => some (String.join ls)

/-- The distinct commit types present in a commit list: the key set of the
`group_commits_by_type` map. -/
def typesPresent (commits : List EnrichedCommit) : List CommitType :=
  (commits.filterMap (fun c => c.commit_type)).dedup

/-- One `#### {type}` subsection of the grouped Changes view. -/
def renderGroup (commits : List EnrichedCommit) (t : CommitType) :
    Option String :=
  match renderCommitList (groupCommitsByType commits t) with
  | none => none
  | some s => some ("#### " ++ displayCommitType t ++ "\n" ++ s ++ "\n")

/-- The grouped Changes subsections, in the order the `HashMap` iteration
happens to yield the types; `order` is that (seed-dependent) iteration
order. -/
def renderGroups (order : List CommitType) (commits : List EnrichedCommit) :
    Option String :=
  match traverseOpt (renderGroup commits) order with
  | none => none
  | some ls => some (String.join ls)

/-- Models the per-component section of
`ChangelogGenerator::generate_simple_markdown`. -/
def renderComponent (order : List CommitType) (comp : ComponentRelease) :
    Option String :=
  match comp.status with
  | .Released cv pv rd commits notes stats =>
    let head := "## " ++ comp.repository ++ "\n\n"
      ++ "**Version:** `" ++ cv ++ "`  \n"
      ++ (match pv with
          | some p => "**Previous:** `" ++ p ++ "`  \n"
          | none => "**Previous:** *Initial Release*  \n")
      ++ "**Release Date:** " ++ rd.formatYmd ++ "  \n"
      ++ "**Commits:** " ++ toString stats.commit_count ++ "  \n\n"
    match (if commits.isEmpty then some ""
           else if (typesPresent commits).isEmpty then
             match renderCommitList commits with
             | none => none
             | some s => some ("### 🎯 Changes\n\n" ++ s ++ "\n")
           else
             match renderGroups order commits with
             | none => none
             | some s => some ("### 🎯 Changes\n\n" ++ s)) with
    | none => none
    | some changes =>
      let notesStr := match notes with
        | some n => "### 📝 Release Notes\n\n" ++ n ++ "\n\n"
        | none => ""
      let contribStr := if stats.contributors.isEmpty then ""
        else "### 👥 Contributors\n"
          ++ String.join (stats.contributors.map (fun c => "- @" ++ c ++ "\n"))
          ++ "\n"
      some (head ++ changes ++ notesStr ++ contribStr ++ "---\n\n")
  | .NoRelease lv ld =>
    let base := "## " ++ comp.repository ++ "\n\n"
      ++ "*No changes in this release*\n\n"
    let latestStr := match lv with
      | some latest => "Latest version: `" ++ latest ++ "`"
          ++ (match ld with
              | some d => " (" ++ d.formatYmd ++ ")"
              | none => "")
          ++ "\n\n"
      | none => ""
    some (base ++ latestStr ++ "---\n\n")

/-- Models `ChangelogGenerator::generate_simple_markdown`, parameterized by
the iteration order of the grouped-commits `HashMap`; a `none` result is the
panic of the short-sha slice. -/
def generateSimpleMarkdown (order : List CommitType) (r : AggregatedRelease) :
    Option String :=
  match traverseOpt (renderComponent order) r.components with
  | none => none
  | some comps =>
    some ("# Release " ++ r.version ++ "\n\n"
      ++ "📅 **Date:** " ++ r.date.formatYmd ++ "\n\n"
      ++ "## 📊 Summary\n\n"
      ++ "- **Total Repositories:** " ++ toString r.summary.total_repos ++ "\n"
      ++ "- **Updated Repositories:** " ++ toString r.summary.updated_repos ++ "\n"
      ++ "- **Total Commits:** " ++ toString r.summary.total_commits ++ "\n"
      ++ "- **Contributors:** " ++ toString r.summary.contributors.length
      ++ "\n\n"
      ++ "---\n\n"
      ++ String.join comps)

/-- Models the short-sha slices taken by the template-data builder in
`generate_markdown` for one component (`"sha": &c.sha[..7]`). -/
def componentShortShas (comp : ComponentRelease) : Option (List String) :=
  match comp.status with
  | .Released _ _ _ commits _ _ => traverseOpt (fun c => shortSha c.sha) commits
  | .NoRelease _ _ => some []

/-- The short-sha slices of the whole template data document. -/
def releasedShortShas (r : AggregatedRelease) : Option (List String) :=
  match traverseOpt componentShortShas r.components with
  | none => none
  | some ls => some ls.flatten

/-- A Feature-typed commit for the rendering scenarios. -/
def featCommit : EnrichedCommit :=
  { sha := "1234567fff"
    message := "Add X"
    author := "alice"
    date := ⟨"2024-04-30T00:00:00Z"⟩
    commit_type := some CommitType.Feature
    breaking := false
    pr_number := some 1
    issues := [] }

/-- A Fix-typed commit for the rendering scenarios. -/
def fixCommit : EnrichedCommit :=
  { sha := "89abcdeddd"
    message := "Fix Y"
    author := "bob"
    date := ⟨"2024-04-29T00:00:00Z"⟩
    commit_type := some CommitType.Fix
    breaking := false
    pr_number := none
    issues := [9] }

/-- The commit list of the rendering scenario: one Feature, one Fix. -/
def demo8Commits : List EnrichedCommit := [featCommit, fixCommit]

/-- A released document whose Changes section has two grouped subsections. -/
def demoDoc8 : AggregatedRelease :=
  { version := "v2.0.0"
    date := demoNow
    components :=
      [{ repository := "web"
         status := ComponentStatus.Released "v2.0.0" (some "v1.0.0")
           ⟨"2024-05-01T00:00:00Z"⟩ demo8Commits none
           { commit_count := 2
             contributors := ["alice", "bob"]
             breaking_changes := 0
             features := 1
             fixes := 1 } }]
    summary := { total_repos := 1, updated_repos := 1, total_commits := 2,
                 contributors := ["alice", "bob"] } }

/-- An enriched commit whose sha has fewer than 7 characters. -/
def badCommit : EnrichedCommit :=
  { sha := "abc"
    message := "Tiny"
    author := "alice"
    date := ⟨"2024-04-30T00:00:00Z"⟩
    commit_type := none
    breaking := false
    pr_number := none
    issues := [] }

/-- A released document containing a sha shorter than 7 characters. -/
def badDoc : AggregatedRelease :=
  { version := "v2.0.0"
    date := demoNow
    components :=
      [{ repository := "web"
         status := ComponentStatus.Released "v2.0.0" none
           ⟨"2024-05-01T00:00:00Z"⟩ [badCommit] none
           { commit_count := 1
             contributors := ["alice"]
             breaking_changes := 0
             features := 0
             fixes := 0 } }]
    summary := { total_repos := 1, updated_repos := 1, total_commits := 1,
                 contributors := ["alice"] } }

/-! `generate_json` is `serde_json::to_string_pretty`; the pretty printer and
parser of `serde_json` are mutually inverse between text and JSON values, so
the repository-owned content of the round trip is the shape of the derived
`Serialize`/`Deserialize` implementations, modelled below as functions to and
from a JSON value tree. -/

/-- A JSON value (the numbers of the document are unsigned integers). -/
inductive Json where
  | null : Json
  | bool (b : Bool) : Json
  | num (n : Nat) : Json
  | str (s : String) : Json
  | arr (xs : List Json) : Json
  | obj (fields : List (String × Json)) : Json

/-- Whether a JSON value is `null`. -/
def Json.isNull : Json → Bool
  | .null => true
  | _ => false

def asStr : Json → Option String
  | .str s => some s
  | _ => none

def asNum : Json → Option Nat
  | .num n => some n
  | _ => none

def asBool : Json → Option Bool
  | .bool b => some b
  | _ => none

def asArr : Json → Option (List Json)
  | .arr xs => some xs
  | _ => none

def asObj : Json → Option (List (String × Json))
  | .obj fs => some fs
  | _ => none

/-- Field lookup in a serialized object. -/
def jGet : List (String × Json) → String → Option Json
  | [], _ => none
  | (k, v) :: rest, key => if k = key then some v else jGet rest key

/-- serde serializes `Option<T>` as `null` or the value. -/
def optToJson {α : Type} (f : α → Json) : Option α → Json
  | none => .null
  | some x => f x

/-- serde deserializes `Option<T>` from `null` or the value. -/
def optFromJson {α : Type} (f : Json → Option α) (j : Json) :
    Option (Option α) :=
  if j.isNull then some none else (f j).map some

/-- chrono serializes a `DateTime<Utc>` as its RFC3339 text. -/
def dtToJson (d : DateTime) : Json := .str d.rfc3339

def dtFromJson (j : Json) : Option DateTime :=
  (asStr j).map DateTime.mk

/-- serde serializes the unit variants of `CommitType` as their names. -/
def commitTypeStr : CommitType → String
  | .Feature => "Feature"
  | .Fix => "Fix"
  | .Documentation => "Documentation"
  | .Performance => "Performance"
  | .Refactor => "Refactor"
  | .Test => "Test"
  | .Build => "Build"
  | .CI => "CI"
  | .Chore => "Chore"
  | .Style => "Style"
  | .Other => "Other"

def commitTypeFromStr (s : String) : Option CommitType :=
  if s = "Feature" then some .Feature
  else if s = "Fix" then some .Fix
  else if s = "Documentation" then some .Documentation
  else if s = "Performance" then some .Performance
  else if s = "Refactor" then some .Refactor
  else if s = "Test" then some .Test
  else if s = "Build" then some .Build
  else if s = "CI" then some .CI
  else if s = "Chore" then some .Chore
  else if s = "Style" then some .Style
  else if s = "Other" then some .Other
  else none

def ctToJson (t : CommitType) : Json := .str (commitTypeStr t)

def ctFromJson (j : Json) : Option CommitType :=
  (asStr j).bind commitTypeFromStr

/-- Serialization of `EnrichedCommit`, field for field. -/
def enrichedToJson (c : EnrichedCommit) : Json :=
  .obj [("sha", .str c.sha),
        ("message", .str c.message),
        ("author", .str c.author),
        ("date", dtToJson c.date),
        ("commit_type", optToJson ctToJson c.commit_type),
        ("breaking", .bool c.breaking),
        ("pr_number", optToJson Json.num c.pr_number),
        ("issues", .arr (c.issues.map Json.num))]

def enrichedFromJson (j : Json) : Option EnrichedCommit := do
  let f ← asObj j
  let sha ← jGet f "sha" >>= asStr
  let message ← jGet f "message" >>= asStr
  let author ← jGet f "author" >>= asStr
  let date ← jGet f "date" >>= dtFromJson
  let ct ← jGet f "commit_type" >>= optFromJson ctFromJson
  let br ← jGet f "breaking" >>= asBool
  let pr ← jGet f "pr_number" >>= optFromJson asNum
  let is ← jGet f "issues" >>= (fun x => (asArr x).bind (traverseOpt asNum))
  pure { sha := sha, message := message, author := author, date := date,
         commit_type := ct, breaking := br, pr_number := pr, issues := is }

/-- Serialization of `ReleaseStats`, field for field. -/
def statsToJson (s : ReleaseStats) : Json :=
  .obj [("commit_count", .num s.commit_count),
        ("contributors", .arr (s.contributors.map Json.str)),
        ("breaking_changes", .num s.breaking_changes),
        ("features", .num s.features),
        ("fixes", .num s.fixes)]

def statsFromJson (j : Json) : Option ReleaseStats := do
  let f ← asObj j
  let cc ← jGet f "commit_count" >>= asNum
  let contribs ← jGet f "contributors" >>= (fun x => (asArr x).bind (traverseOpt asStr))
  let bc ← jGet f "breaking_changes" >>= asNum
  let ft ← jGet f "features" >>= asNum
  let fx ← jGet f "fixes" >>= asNum
  pure { commit_count := cc, contributors := contribs, breaking_changes := bc,
         features := ft, fixes := fx }

/-- Serialization of `ComponentStatus`: serde's externally tagged enum
representation, a one-entry map from the variant name to its fields. -/
def statusToJson : ComponentStatus → Json
  | .Released cv pv rd commits notes stats =>
    .obj [("Released", .obj
      [("current_version", .str cv),
       ("previous_version", optToJson Json.str pv),
       ("release_date", dtToJson rd),
       ("commits", .arr (commits.map enrichedToJson)),
       ("release_notes", optToJson Json.str notes),
       ("stats", statsToJson stats)])]
  | .NoRelease lv ld =>
    .obj [("NoRelease", .obj
      [("latest_version", optToJson Json.str lv),
       ("latest_date", optToJson dtToJson ld)])]

def statusFromJson (j : Json) : Option ComponentStatus := do
  let f ← asObj j
  match f with
  | [("Released", inner)] => do
    let fi ← asObj inner
    let cv ← jGet fi "current_version" >>= asStr
    let pv ← jGet fi "previous_version" >>= optFromJson asStr
    let rd ← jGet fi "release_date" >>= dtFromJson
    let commits ← jGet fi "commits" >>=
      (fun x => (asArr x).bind (traverseOpt enrichedFromJson))
    let notes ← jGet fi "release_notes" >>= optFromJson asStr
    let stats ← jGet fi "stats" >>= statsFromJson
    pure (ComponentStatus.Released cv pv rd commits notes stats)
  | [("NoRelease", inner)] => do
    let fi ← asObj inner
    let lv ← jGet fi "latest_version" >>= optFromJson asStr
    let ld ← jGet fi "latest_date" >>= optFromJson dtFromJson
    pure (ComponentStatus.NoRelease lv ld)
  | _ => none

/-- Serialization of `ComponentRelease`, field for field. -/
def componentToJson (c : ComponentRelease) : Json :=
  .obj [("repository", .str c.repository),
        ("status", statusToJson c.status)]

def componentFromJson (j : Json) : Option ComponentRelease := do
  let f ← asObj j
  let repo ← jGet f "repository" >>= asStr
  let st ← jGet f "status" >>= statusFromJson
  pure { repository := repo, status := st }

/-- Serialization of `ReleaseSummary`, field for field. -/
def summaryToJson (s : ReleaseSummary) : Json :=
  .obj [("total_repos", .num s.total_repos),
        ("updated_repos", .num s.updated_repos),
        ("total_commits", .num s.total_commits),
        ("contributors", .arr (s.contributors.map Json.str))]

def summaryFromJson (j : Json) : Option ReleaseSummary := do
  let f ← asObj j
  let tr ← jGet f "total_repos" >>= asNum
  let ur ← jGet f "updated_repos" >>= asNum
  let tc ← jGet f "total_commits" >>= asNum
  let contribs ← jGet f "contributors" >>= (fun x => (asArr x).bind (traverseOpt asStr))
  pure { total_repos := tr, updated_repos := ur, total_commits := tc,
         contributors := contribs }

/-- Serialization of `AggregatedRelease`, the document `generate_json`
writes, field for field. -/
def aggregatedToJson (r : AggregatedRelease) : Json :=
  .obj [("version", .str r.version),
        ("date", dtToJson r.date),
        ("components", .arr (r.components.map componentToJson)),
        ("summary", summaryToJson r.summary)]

def aggregatedFromJson (j : Json) : Option AggregatedRelease := do
  let f ← asObj j
  let v ← jGet f "version" >>= asStr
  let d ← jGet f "date" >>= dtFromJson
  let comps ← jGet f "components" >>=
    (fun x => (asArr x).bind (traverseOpt componentFromJson))
  let s ← jGet f "summary" >>= summaryFromJson
  pure { version := v, date := d, components := comps, summary := s }

/-! ### Theorems -/

theorem dedupAdj_sublist {α : Type} [DecidableEq α] :
    ∀ l : List α, List.Sublist (dedupAdj l) l
  | [] => by simp [dedupAdj]
  | [a] => by simp [dedupAdj]
  | a :: b :: t => by
    by_cases h : a = b
    · simpa [dedupAdj, h] using (dedupAdj_sublist (b :: t)).cons a
    · simpa [dedupAdj, h] using (dedupAdj_sublist (b :: t)).cons₂ a

theorem mem_dedupAdj {α : Type} [DecidableEq α] :
    ∀ (l : List α) (x : α), x ∈ dedupAdj l ↔ x ∈ l
  | [] , x => by simp [dedupAdj]
  | [a], x => by simp [dedupAdj]
  | a :: b :: t, x => by
    by_cases h : a = b
    · subst h
      simp [dedupAdj, mem_dedupAdj (a :: t) x]
    · simp [dedupAdj, h, mem_dedupAdj (b :: t) x]

theorem sorted_lt_dedupAdj {α : Type} [LinearOrder α] :
    ∀ l : List α, l.Sorted (· ≤ ·) → (dedupAdj l).Sorted (· < ·)
  | [], _ => by simp [dedupAdj]
  | [a], _ => by simp [dedupAdj]
  | a :: b :: t, h => by
    rw [List.sorted_cons] at h
    by_cases hab : a = b
    · rw [show dedupAdj (a :: b :: t) = dedupAdj (b :: t) by simp [dedupAdj, hab]]
      exact sorted_lt_dedupAdj (b :: t) h.2
    · rw [show dedupAdj (a :: b :: t) = a :: dedupAdj (b :: t) by
        simp [dedupAdj, hab]]
      rw [List.sorted_cons]
      refine ⟨?_, sorted_lt_dedupAdj (b :: t) h.2⟩
      intro x hx
      have hxbt : x ∈ b :: t := (mem_dedupAdj _ _).1 hx
      rcases List.mem_cons.1 hxbt with rfl | hxt
      · exact lt_of_le_of_ne (h.1 x (List.mem_cons_self _ _)) hab
      · have hbx : b ≤ x := (List.sorted_cons.1 h.2).1 x hxt
        have hao : a ≤ b := h.1 b (List.mem_cons_self _ _)
        exact lt_of_lt_of_le (lt_of_le_of_ne hao hab) hbx

theorem sorted_le_dedupAdj {α : Type} [LinearOrder α] (l : List α)
    (h : l.Sorted (· ≤ ·)) : (dedupAdj l).Sorted (· ≤ ·) :=
  (sorted_lt_dedupAdj l h).imp (fun hlt => le_of_lt hlt)

theorem nodup_dedupAdj {α : Type} [LinearOrder α] (l : List α)
    (h : l.Sorted (· ≤ ·)) : (dedupAdj l).Nodup :=
  (sorted_lt_dedupAdj l h).nodup

theorem dedupAdj_eq_self_of_nodup {α : Type} [DecidableEq α] :
    ∀ l : List α, l.Nodup → dedupAdj l = l
  | [], _ => rfl
  | [a], _ => rfl
  | a :: b :: t, h => by
    have hab : a ≠ b := by
      intro hab
      exact (List.nodup_cons.1 h).1 (hab ▸ List.mem_cons_self _ _)
    rw [show dedupAdj (a :: b :: t) = a :: dedupAdj (b :: t) by
      simp [dedupAdj, hab]]
    rw [dedupAdj_eq_self_of_nodup (b :: t) (List.nodup_cons.1 h).2]

theorem sortLe_sorted {α : Type} [LinearOrder α] (l : List α) :
    (sortLe l).Sorted (· ≤ ·) :=
  List.sorted_insertionSort _ l

theorem sortLe_perm {α : Type} [LinearOrder α] (l : List α) :
    List.Perm (sortLe l) l :=
  List.perm_insertionSort _ l

theorem sortLe_eq_of_perm {α : Type} [LinearOrder α] {l l' : List α}
    (hp : List.Perm l l') : sortLe l = sortLe l' :=
  List.eq_of_perm_of_sorted ((sortLe_perm l).trans (hp.trans (sortLe_perm l').symm))
    (sortLe_sorted l) (sortLe_sorted l')

theorem sortLe_eq_self_of_sorted {α : Type} [LinearOrder α] {l : List α}
    (h : l.Sorted (· ≤ ·)) : sortLe l = l :=
  List.eq_of_perm_of_sorted (sortLe_perm l) (sortLe_sorted l) h

theorem sortDedup_idem {α : Type} [LinearOrder α] (l : List α) :
    dedupAdj (sortLe (dedupAdj (sortLe l))) = dedupAdj (sortLe l) := by
  rw [sortLe_eq_self_of_sorted (sorted_le_dedupAdj _ (sortLe_sorted l))]
  exact dedupAdj_eq_self_of_nodup _ (nodup_dedupAdj _ (sortLe_sorted l))

theorem mem_sortDedup {α : Type} [LinearOrder α] (l : List α) (x : α) :
    x ∈ dedupAdj (sortLe l) ↔ x ∈ l :=
  (mem_dedupAdj _ _).trans (sortLe_perm l).mem_iff

/-- Characters are equal when their code points are. -/
theorem char_eq_of_toNat_eq {a b : Char} (h : a.toNat = b.toNat) : a = b :=
  Char.eq_of_val_eq (UInt32.ext h)

theorem lexLeb_total : ∀ as bs : List Char,
    lexLeb as bs = true ∨ lexLeb bs as = true
  | [], bs => by left; cases bs <;> simp [lexLeb]
  | _ :: _, [] => by right; simp [lexLeb]
  | a :: as, b :: bs => by
    by_cases h1 : a.toNat < b.toNat
    · left; simp [lexLeb, h1]
    · by_cases h2 : b.toNat < a.toNat
      · right; simp [lexLeb, h2]
      · rcases lexLeb_total as bs with h | h
        · left; simp [lexLeb, h1, h2, h]
        · right; simp [lexLeb, h1, h2, h]

theorem lexLeb_trans : ∀ as bs cs : List Char, lexLeb as bs = true →
    lexLeb bs cs = true → lexLeb as cs = true
  | [], _, cs, _, _ => by cases cs <;> simp [lexLeb]
  | a :: as, [], cs, h1, _ => by simp [lexLeb] at h1
  | a :: as, b :: bs, [], _, h2 => by simp [lexLeb] at h2
  | a :: as, b :: bs, c :: cs, h1, h2 => by
    by_cases hab : a.toNat < b.toNat
    · by_cases hbc : b.toNat < c.toNat
      · simp [lexLeb, Nat.lt_trans hab hbc]
      · by_cases hcb : c.toNat < b.toNat
        · simp [lexLeb, hbc, hcb] at h2
        · have hac : a.toNat < c.toNat := by omega
          simp [lexLeb, hac]
    · by_cases hba : b.toNat < a.toNat
      · simp [lexLeb, hab, hba] at h1
      · by_cases hbc : b.toNat < c.toNat
        · have hac : a.toNat < c.toNat := by omega
          simp [lexLeb, hac]
        · by_cases hcb : c.toNat < b.toNat
          · simp [lexLeb, hbc, hcb] at h2
          · have h1s : lexLeb as bs = true := by
              simpa [lexLeb, hab, hba] using h1
            have h2s : lexLeb bs cs = true := by
              simpa [lexLeb, hbc, hcb] using h2
            have hac : ¬ a.toNat < c.toNat := by omega
            have hca : ¬ c.toNat < a.toNat := by omega
            simp [lexLeb, hac, hca, lexLeb_trans as bs cs h1s h2s]

theorem lexLeb_antisymm : ∀ as bs : List Char, lexLeb as bs = true →
    lexLeb bs as = true → as = bs
  | [], [], _, _ => rfl
  | [], b :: bs, _, h2 => by simp [lexLeb] at h2
  | a :: as, [], h1, _ => by simp [lexLeb] at h1
  | a :: as, b :: bs, h1, h2 => by
    by_cases hab : a.toNat < b.toNat
    · simp [lexLeb, hab, show ¬ b.toNat < a.toNat by omega] at h2
    · by_cases hba : b.toNat < a.toNat
      · simp [lexLeb, hab, hba] at h1
      · have heq : a = b := char_eq_of_toNat_eq (by omega)
        have h1s : lexLeb as bs = true := by simpa [lexLeb, hab, hba] using h1
        have h2s : lexLeb bs as = true := by simpa [lexLeb, hab, hba] using h2
        rw [heq, lexLeb_antisymm as bs h1s h2s]

instance : IsTotal String strLe :=
  ⟨fun a b => lexLeb_total a.toList b.toList⟩

instance : IsTrans String strLe :=
  ⟨fun a b c => lexLeb_trans a.toList b.toList c.toList⟩

instance : IsAntisymm String strLe :=
  ⟨fun a b h1 h2 => String.toList_inj.mp (lexLeb_antisymm a.toList b.toList h1 h2)⟩

theorem sortStr_sorted (l : List String) : (sortStr l).Sorted strLe :=
  List.sorted_insertionSort strLe l

theorem sortStr_perm (l : List String) : List.Perm (sortStr l) l :=
  List.perm_insertionSort strLe l

/-- Sortedness for any relation survives adjacent deduplication. -/
theorem sorted_dedupAdj_rel {α : Type} [DecidableEq α] {r : α → α → Prop}
    {l : List α} (h : l.Sorted r) : (dedupAdj l).Sorted r :=
  List.Pairwise.sublist (dedupAdj_sublist l) h

/-- Adjacent deduplication of a list sorted by an antisymmetric relation has
no duplicates. -/
theorem nodup_dedupAdj_rel {α : Type} [DecidableEq α] (r : α → α → Prop)
    [IsAntisymm α r] :
    ∀ l : List α, l.Sorted r → (dedupAdj l).Nodup
  | [], _ => by simp [dedupAdj]
  | [a], _ => by simp [dedupAdj]
  | a :: b :: t, h => by
    rw [List.sorted_cons] at h
    by_cases hab : a = b
    · rw [show dedupAdj (a :: b :: t) = dedupAdj (b :: t) by simp [dedupAdj, hab]]
      exact nodup_dedupAdj_rel r (b :: t) h.2
    · rw [show dedupAdj (a :: b :: t) = a :: dedupAdj (b :: t) by
        simp [dedupAdj, hab]]
      rw [List.nodup_cons]
      refine ⟨?_, nodup_dedupAdj_rel r (b :: t) h.2⟩
      intro hmem
      have hxbt : a ∈ b :: t := (mem_dedupAdj _ _).1 hmem
      rcases List.mem_cons.1 hxbt with heq | hat
      · exact hab heq
      · have hba : r b a := (List.sorted_cons.1 h.2).1 a hat
        have hab2 : r a b := h.1 b (List.mem_cons_self _ _)
        exact hab (antisymm hab2 hba)

/-- C3: classification tests the lower-cased first line against the fixed
ordered prefix table, first match winning; a commit with no matching prefix
has no `commit_type`, appears in no group of the group-by-type helper, and
stays in the flat commit list (analysis is one-to-one, sha for sha). -/
theorem classification_prefix_table (msg : String) (raws : List CommitInfo)
    (cs : List EnrichedCommit) (c : EnrichedCommit) (t : CommitType)
    (hc : c.commit_type = none) :
    (parseCommitMessage msg).1 = firstMatch (lowerFirstLine msg) typeTable
    ∧ (analyzeCommits raws).map (fun e => e.sha) = raws.map (fun r => r.sha)
    ∧ c ∉ groupCommitsByType cs t := by
  refine ⟨?_, ?_, ?_⟩
  · simp only [parseCommitMessage, firstMatch, typeTable, lowerFirstLine,
      List.any_cons, List.any_nil, Bool.or_false]
  · simp [analyzeCommits, analyzeSingleCommit, List.map_map, Function.comp]
  · simp [groupCommitsByType, List.mem_filter, hc]

/-- Witness for C3 at a prefix-free message and an untyped commit. -/
theorem classification_prefix_table_witness :
    (parseCommitMessage "Hello world").1
        = firstMatch (lowerFirstLine "Hello world") typeTable
    ∧ (analyzeCommits []).map (fun e => e.sha)
        = ([] : List CommitInfo).map (fun r => r.sha)
    ∧ untypedDemo ∉ groupCommitsByType [untypedDemo] CommitType.Feature :=
  classification_prefix_table "Hello world" [] [untypedDemo] untypedDemo
    CommitType.Feature (by decide)

/-- C4, counterexample: on the message `feat:(scope)` the code's
`clean_message` keeps the trailing closing parenthesis (it only ever strips
leading characters), producing `Scope)`, while the claim's procedure, which
strips trailing parentheses, produces `Scope`. -/
theorem clean_message_counterexample :
    (analyzeSingleCommit cexCommit).message = "Scope)"
    ∧ cleanMessage "feat:(scope)" = "Scope)"
    ∧ cleanMessageSpec "feat:(scope)" = "Scope"
    ∧ cleanMessage "feat:(scope)" ≠ cleanMessageSpec "feat:(scope)" := by
  refine ⟨by decide, by decide, by decide, by decide⟩

/-- C4 as amended: the cleaned subject is the first line with leading
non-alphabetic characters dropped, every token of the fixed list trim-stripped
in order (each repeatedly while it remains a prefix, so several tokens may be
stripped), then leading colons, then leading opening parentheses, then
leading closing parentheses stripped (trailing parentheses are not removed),
whitespace trimmed and the first letter capitalized. -/
theorem clean_message_amended_correct (msg : String) :
    cleanMessage msg = cleanMessageAmended msg := by
  simp only [cleanMessage, cleanMessageAmended, cleanTokens,
    List.cons_append, List.nil_append, List.foldl_cons, List.foldl_nil]

/-- C5: issue extraction collects the `#digits` occurrences, sorts them
ascending and deduplicates: the example message yields `[5, 12]`; the result
is always sorted and duplicate-free; re-normalizing an extraction result
changes nothing (idempotence); and the sort-dedup normalization gives equal
results on any two permutations of the same match list (order independence). -/
theorem issue_extraction_sorted_dedup (msg : String) (l l' : List Nat)
    (hp : List.Perm l l') :
    extractIssues "fixes #12, closes #5, see #12" = [5, 12]
    ∧ (extractIssues msg).Sorted (· ≤ ·)
    ∧ (extractIssues msg).Nodup
    ∧ dedupAdj (sortLe (extractIssues msg)) = extractIssues msg
    ∧ dedupAdj (sortLe l) = dedupAdj (sortLe l') := by
  refine ⟨by decide, ?_, ?_, ?_, ?_⟩
  · exact sorted_le_dedupAdj _ (sortLe_sorted _)
  · exact nodup_dedupAdj _ (sortLe_sorted _)
  · exact sortDedup_idem _
  · rw [sortLe_eq_of_perm hp]

/-- Witness for C5 at the example message and a concrete permutation pair. -/
theorem issue_extraction_sorted_dedup_witness :
    extractIssues "fixes #12, closes #5, see #12" = [5, 12]
    ∧ (extractIssues "fixes #12, closes #5, see #12").Sorted (· ≤ ·)
    ∧ (extractIssues "fixes #12, closes #5, see #12").Nodup
    ∧ dedupAdj (sortLe (extractIssues "fixes #12, closes #5, see #12"))
        = extractIssues "fixes #12, closes #5, see #12"
    ∧ dedupAdj (sortLe [12, 5, 12]) = dedupAdj (sortLe [5, 12, 12]) :=
  issue_extraction_sorted_dedup "fixes #12, closes #5, see #12"
    [12, 5, 12] [5, 12, 12] (by decide)

/-- C2: `get_commits_between` returns exactly the `to`-page commits whose sha
is not among the `from`-page shas (a sha set-difference), in `to` traversal
order (the result sha list is a sublist of the `to` sha list); on the example
pages with from-shas a,b,c and to-shas a,b,c,d,e only d and e remain. -/
theorem commits_between_sha_difference (now : DateTime)
    (toItems fromItems : List RepoCommit) :
    (getCommitsBetween now toItems fromItems).map (fun c => c.sha)
      = (toItems.map (fun c => c.sha)).filter
          (fun s => !((fromItems.map (fun c => c.sha)).contains s))
    ∧ List.Sublist
        ((getCommitsBetween now toItems fromItems).map (fun c => c.sha))
        (toItems.map (fun c => c.sha))
    ∧ (∀ s, s ∈ (getCommitsBetween now toItems fromItems).map (fun c => c.sha)
        ↔ s ∈ toItems.map (fun c => c.sha)
          ∧ s ∉ fromItems.map (fun c => c.sha))
    ∧ (getCommitsBetween demoNow demoTo demoFrom).map (fun c => c.sha)
        = ["d", "e"] := by
  have hmain : (getCommitsBetween now toItems fromItems).map (fun c => c.sha)
      = (toItems.map (fun c => c.sha)).filter
          (fun s => !((fromItems.map (fun c => c.sha)).contains s)) := by
    simp only [getCommitsBetween, List.map_map]
    rw [List.filter_map]
    rfl
  refine ⟨hmain, ?_, ?_, by decide⟩
  · rw [hmain]
    exact List.filter_sublist _
  · intro s
    rw [hmain, List.mem_filter]
    simp

/-- C6: a "Not Found" GitHub error from the release lookup is mapped to a
successful absent value (never an error), and when the release lookup yields
an absent value the engine succeeds with `NoRelease` carrying the latest
release's tag and creation date (absent when there is no latest release). -/
theorem no_release_reports_latest (client : Client) (cfg : AggregatorConfig)
    (now : DateTime) (repo version m : String) (latest : Option Release)
    (hm : isNotFoundMsg m = true)
    (h1 : client.getRelease repo version = .ok none)
    (h2 : client.getLatestRelease repo = .ok latest) :
    mapNotFound (.error (.github m)) = .ok none
    ∧ processRepository client cfg now repo version
        = .ok { repository := repo
                status := ComponentStatus.NoRelease
                  (latest.map (fun r => r.tag_name))
                  (latest.bind (fun r => r.created_at)) } := by
  constructor
  · simp [mapNotFound, hm]
  · unfold processRepository
    rw [h1, h2]

/-- Witness for C6: the v2.0.0 / v1.9.0 / 2024-01-01 scenario. -/
theorem no_release_reports_latest_witness :
    mapNotFound (.error (.github "404: Not Found")) = .ok none
    ∧ processRepository client6 cfgDefault demoNow "frontend" "v2.0.0"
        = .ok { repository := "frontend"
                status := ComponentStatus.NoRelease
                  ((some relV19).map (fun r => r.tag_name))
                  ((some relV19).bind (fun r => r.created_at)) } :=
  no_release_reports_latest client6 cfgDefault demoNow "frontend" "v2.0.0"
    "404: Not Found" (some relV19) (by decide) rfl rfl

/-- C10: with `categorize_commits` off (and no PR back-fill), every enriched
commit of a `Released` component keeps the raw, uncleaned message, has no
type, is not breaking, has no issues and no PR number; the stats therefore
count zero breaking changes, features and fixes, while the commit count and
the sorted deduplicated contributor list are computed as usual. -/
theorem uncategorized_commits_plain (client : Client) (cfg : AggregatorConfig)
    (now : DateTime) (repo version : String) (rel : Release)
    (prevOpt : Option Release) (rawList : List CommitInfo)
    (comp : ComponentRelease)
    (hcat : cfg.categorize_commits = false)
    (hpr : cfg.include_prs = false)
    (h1 : client.getRelease repo version = .ok (some rel))
    (h2 : client.getPreviousRelease repo rel = .ok prevOpt)
    (h3 : (match prevOpt with
           | some prev => client.getCommitsBetween repo prev.tag_name rel.tag_name
           | none => client.getAllCommitsUntil repo rel.tag_name) = .ok rawList)
    (hout : processRepository client cfg now repo version = .ok comp) :
    (∀ c ∈ comp.status.commitsOf,
      c.commit_type = none ∧ c.breaking = false ∧ c.pr_number = none
        ∧ c.issues = [])
    ∧ comp.status.commitsOf.map (fun c => c.message)
        = rawList.map (fun c => c.message)
    ∧ comp.status.commitsOf.map (fun c => c.sha)
        = rawList.map (fun c => c.sha)
    ∧ comp.status.statsOf = some
        { commit_count := rawList.length
          contributors := dedupAdj (sortStr (rawList.map
            (fun c => c.author.username.getD c.author.name)))
          breaking_changes := 0
          features := 0
          fixes := 0 } := by
  unfold processRepository at hout
  rw [h1] at hout
  dsimp only at hout
  rw [h2] at hout
  dsimp only at hout
  cases prevOpt with
  | some prev =>
    dsimp only at h3 hout
    rw [h3] at hout
    simp only [hcat, hpr, Bool.false_eq_true, if_false,
      Except.ok.injEq] at hout
    subst hout
    refine ⟨?_, ?_, ?_, ?_⟩
    · intro c hc
      simp only [ComponentStatus.commitsOf, List.mem_map] at hc
      obtain ⟨a, _, rfl⟩ := hc
      simp [plainEnrich]
    · simp [ComponentStatus.commitsOf, List.map_map, Function.comp, plainEnrich]
    · simp [ComponentStatus.commitsOf, List.map_map, Function.comp, plainEnrich]
    · simp only [ComponentStatus.statsOf, List.map_map, List.length_map,
        List.filter_map, Option.some.injEq, ReleaseStats.mk.injEq]
      refine ⟨by trivial, by rfl, ?_, ?_, ?_⟩ <;>
        simp [Function.comp, plainEnrich]
  | none =>
    dsimp only at h3 hout
    rw [h3] at hout
    simp only [hcat, hpr, Bool.false_eq_true, if_false,
      Except.ok.injEq] at hout
    subst hout
    refine ⟨?_, ?_, ?_, ?_⟩
    · intro c hc
      simp only [ComponentStatus.commitsOf, List.mem_map] at hc
      obtain ⟨a, _, rfl⟩ := hc
      simp [plainEnrich]
    · simp [ComponentStatus.commitsOf, List.map_map, Function.comp, plainEnrich]
    · simp [ComponentStatus.commitsOf, List.map_map, Function.comp, plainEnrich]
    · simp only [ComponentStatus.statsOf, List.map_map, List.length_map,
        List.filter_map, Option.some.injEq, ReleaseStats.mk.injEq]
      refine ⟨by trivial, by rfl, ?_, ?_, ?_⟩ <;>
        simp [Function.comp, plainEnrich]

/-- Witness for C10 at the two-commit scenario with categorization off. -/
theorem uncategorized_commits_plain_witness :
    (∀ c ∈ comp10.status.commitsOf,
      c.commit_type = none ∧ c.breaking = false ∧ c.pr_number = none
        ∧ c.issues = [])
    ∧ comp10.status.commitsOf.map (fun c => c.message)
        = [rawA, rawB].map (fun c => c.message)
    ∧ comp10.status.commitsOf.map (fun c => c.sha)
        = [rawA, rawB].map (fun c => c.sha)
    ∧ comp10.status.statsOf = some
        { commit_count := ([rawA, rawB] : List CommitInfo).length
          contributors := dedupAdj (sortStr (([rawA, rawB] : List CommitInfo).map
            (fun c => c.author.username.getD c.author.name)))
          breaking_changes := 0
          features := 0
          fixes := 0 } :=
  uncategorized_commits_plain client10 cfgPlain demoNow "frontend" "v2.0.0"
    relV20 none [rawA, rawB] comp10 rfl rfl rfl rfl rfl rfl

/-- Loop invariant of `aggLoop`: on success the accumulators advance by the
components produced for the processed repositories. -/
theorem aggLoop_spec (client : Client) (cfg : AggregatorConfig)
    (now : DateTime) (version : String) :
    ∀ (repos : List String) (comps : List ComponentRelease)
      (contribs : List String) (tc ur : Nat)
      (out : List ComponentRelease × List String × Nat × Nat),
      aggLoop client cfg now version repos (comps, contribs, tc, ur) = .ok out →
      ∃ nc : List ComponentRelease,
        out.1 = comps ++ nc
        ∧ nc.length = repos.length
        ∧ out.2.1 = contribs ++ (nc.map (fun c => c.status.contribsOf)).flatten
        ∧ out.2.2.1 = tc + (nc.map (fun c => c.status.commitsOf.length)).sum
        ∧ out.2.2.2 = ur + (nc.filter (fun c => c.status.isReleased)).length
  | [], comps, contribs, tc, ur, out, h => by
    simp only [aggLoop, Except.ok.injEq] at h
    subst h
    exact ⟨[], by simp, rfl, by simp, by simp, by simp⟩
  | repo :: rest, comps, contribs, tc, ur, out, h => by
    simp only [aggLoop] at h
    cases hp : processRepository client cfg now repo version with
    | error e => rw [hp] at h; simp at h
    | ok comp =>
      rw [hp] at h
      dsimp only at h
      cases hst : comp.status with
      | Released cv pv rd commits notes stats =>
        rw [hst] at h
        dsimp only at h
        obtain ⟨nc, e1, e2, e3, e4, e5⟩ :=
          aggLoop_spec client cfg now version rest _ _ _ _ _ h
        refine ⟨comp :: nc, ?_, ?_, ?_, ?_, ?_⟩
        · rw [e1]; simp
        · simp [e2]
        · rw [e3]
          simp [hst, ComponentStatus.contribsOf]
        · rw [e4]
          simp [hst, ComponentStatus.commitsOf]
          omega
        · rw [e5]
          simp [hst, ComponentStatus.isReleased, List.filter_cons]
          omega
      | NoRelease lv ld =>
        rw [hst] at h
        dsimp only at h
        obtain ⟨nc, e1, e2, e3, e4, e5⟩ :=
          aggLoop_spec client cfg now version rest _ _ _ _ _ h
        refine ⟨comp :: nc, ?_, ?_, ?_, ?_, ?_⟩
        · rw [e1]; simp
        · simp [e2]
        · rw [e3]
          simp [hst, ComponentStatus.contribsOf]
        · rw [e4]
          simp [hst, ComponentStatus.commitsOf]
        · rw [e5]
          simp [hst, ComponentStatus.isReleased, List.filter_cons]

/-- Membership in the contributor list of a status implies `Released`. -/
theorem contribsOf_mem_isReleased (st : ComponentStatus) (s : String)
    (h : s ∈ st.contribsOf) : st.isReleased = true := by
  cases st with
  | Released cv pv rd commits notes stats => rfl
  | NoRelease lv ld => simp [ComponentStatus.contribsOf] at h

/-- C1: on every successful aggregation the summary is consistent with the
component list: `total_repos` equals the number of requested repositories and
the number of components; `updated_repos` counts the `Released` components;
`total_commits` sums the commit-list lengths of the `Released` components;
and the summary contributor list is sorted, duplicate-free, and holds exactly
the contributors of the `Released` components. -/
theorem aggregate_summary_consistent (client : Client) (cfg : AggregatorConfig)
    (now : DateTime) (version : String) (repos : List String)
    (agg : AggregatedRelease)
    (h : aggregate client cfg now version repos = .ok agg) :
    agg.summary.total_repos = repos.length
    ∧ agg.summary.total_repos = agg.components.length
    ∧ agg.summary.updated_repos
        = (agg.components.filter (fun c => c.status.isReleased)).length
    ∧ agg.summary.total_commits
        = (agg.components.map (fun c => c.status.commitsOf.length)).sum
    ∧ agg.summary.contributors.Sorted strLe
    ∧ agg.summary.contributors.Nodup
    ∧ (∀ s, s ∈ agg.summary.contributors
        ↔ ∃ c ∈ agg.components, c.status.isReleased = true
            ∧ s ∈ c.status.contribsOf) := by
  unfold aggregate at h
  cases hl : aggLoop client cfg now version repos ([], [], 0, 0) with
  | error e => rw [hl] at h; simp at h
  | ok acc =>
    rw [hl] at h
    obtain ⟨comps, contribs, tc, ur⟩ := acc
    dsimp only at h
    rw [Except.ok.injEq] at h
    subst h
    obtain ⟨nc, e1, e2, e3, e4, e5⟩ :=
      aggLoop_spec client cfg now version repos [] [] 0 0 _ hl
    simp only [List.nil_append, Nat.zero_add] at e1 e2 e3 e4 e5
    subst e1 e3 e4 e5
    refine ⟨rfl, e2.symm, rfl, rfl, ?_, ?_, ?_⟩
    · exact sorted_dedupAdj_rel (sortStr_sorted _)
    · exact nodup_dedupAdj_rel strLe _ (sortStr_sorted _)
    · intro s
      rw [(mem_dedupAdj _ s).trans (sortStr_perm _).mem_iff]
      rw [List.mem_flatten]
      constructor
      · rintro ⟨l, hl2, hs⟩
        rw [List.mem_map] at hl2
        obtain ⟨c, hc, rfl⟩ := hl2
        exact ⟨c, hc, contribsOf_mem_isReleased c.status s hs, hs⟩
      · rintro ⟨c, hc, _, hs⟩
        exact ⟨c.status.contribsOf, List.mem_map_of_mem _ hc, hs⟩

/-- Witness for C1 on the two-repository scenario. -/
theorem aggregate_summary_consistent_witness :
    agg1.summary.total_repos = (["frontend", "docs"] : List String).length
    ∧ agg1.summary.total_repos = agg1.components.length
    ∧ agg1.summary.updated_repos
        = (agg1.components.filter (fun c => c.status.isReleased)).length
    ∧ agg1.summary.total_commits
        = (agg1.components.map (fun c => c.status.commitsOf.length)).sum
    ∧ agg1.summary.contributors.Sorted strLe
    ∧ agg1.summary.contributors.Nodup
    ∧ (∀ s, s ∈ agg1.summary.contributors
        ↔ ∃ c ∈ agg1.components, c.status.isReleased = true
            ∧ s ∈ c.status.contribsOf) :=
  aggregate_summary_consistent client1 cfgDefault demoNow "v2.0.0"
    ["frontend", "docs"] agg1 rfl

/-- A traversal over elements on which `f` succeeds succeeds. -/
theorem traverseOpt_isSome {α β : Type} (f : α → Option β) :
    ∀ l : List α, (∀ a ∈ l, (f a).isSome) → (traverseOpt f l).isSome
  | [], _ => rfl
  | a :: rest, h => by
    have hfa := h a (List.mem_cons_self _ _)
    have hrest := traverseOpt_isSome f rest
      (fun x hx => h x (List.mem_cons_of_mem _ hx))
    simp only [traverseOpt]
    cases hA : f a with
    | none => rw [hA] at hfa; simp at hfa
    | some b =>
      cases hR : traverseOpt f rest with
      | none => rw [hR] at hrest; simp at hrest
      | some bs => simp

theorem shortSha_isSome (s : String) (h : 7 ≤ s.toList.length) :
    (shortSha s).isSome := by
  simp only [shortSha, if_pos h, Option.isSome_some]

theorem commitLine_isSome (c : EnrichedCommit)
    (h : 7 ≤ c.sha.toList.length) : (commitLine c).isSome := by
  have hs := shortSha_isSome c.sha h
  simp only [commitLine]
  cases hS : shortSha c.sha with
  | none => rw [hS] at hs; simp at hs
  | some s7 => simp

theorem renderCommitList_isSome (cs : List EnrichedCommit)
    (h : ∀ c ∈ cs, 7 ≤ c.sha.toList.length) :
    (renderCommitList cs).isSome := by
  have ht := traverseOpt_isSome commitLine cs
    (fun c hc => commitLine_isSome c (h c hc))
  simp only [renderCommitList]
  cases hT : traverseOpt commitLine cs with
  | none => rw [hT] at ht; simp at ht
  | some ls => simp

theorem renderGroup_isSome (commits : List EnrichedCommit) (t : CommitType)
    (h : ∀ c ∈ commits, 7 ≤ c.sha.toList.length) :
    (renderGroup commits t).isSome := by
  have hr := renderCommitList_isSome (groupCommitsByType commits t)
    (fun c hc => h c (List.mem_of_mem_filter hc))
  simp only [renderGroup]
  cases hR : renderCommitList (groupCommitsByType commits t) with
  | none => rw [hR] at hr; simp at hr
  | some s => simp

theorem renderGroups_isSome (order : List CommitType)
    (commits : List EnrichedCommit)
    (h : ∀ c ∈ commits, 7 ≤ c.sha.toList.length) :
    (renderGroups order commits).isSome := by
  have ht := traverseOpt_isSome (renderGroup commits) order
    (fun t _ => renderGroup_isSome commits t h)
  simp only [renderGroups]
  cases hT : traverseOpt (renderGroup commits) order with
  | none => rw [hT] at ht; simp at ht
  | some ls => simp

theorem renderComponent_isSome (order : List CommitType)
    (comp : ComponentRelease)
    (h : ∀ c ∈ comp.status.commitsOf, 7 ≤ c.sha.toList.length) :
    (renderComponent order comp).isSome := by
  obtain ⟨repo, st⟩ := comp
  cases st with
  | Released cv pv rd commits notes stats =>
    have hc : ∀ c ∈ commits, 7 ≤ c.sha.toList.length := by
      simpa [ComponentStatus.commitsOf] using h
    simp only [renderComponent]
    by_cases he : commits.isEmpty
    · simp [he]
    · by_cases htp : (typesPresent commits).isEmpty
      · have hr := renderCommitList_isSome commits hc
        cases hR : renderCommitList commits with
        | none => rw [hR] at hr; simp at hr
        | some s => simp [he, htp, hR]
      · have hr := renderGroups_isSome order commits hc
        cases hR : renderGroups order commits with
        | none => rw [hR] at hr; simp at hr
        | some s => simp [he, htp, hR]
  | NoRelease lv ld => simp [renderComponent]

theorem generateSimpleMarkdown_isSome (order : List CommitType)
    (r : AggregatedRelease)
    (h : ∀ comp ∈ r.components, ∀ c ∈ comp.status.commitsOf,
      7 ≤ c.sha.toList.length) :
    (generateSimpleMarkdown order r).isSome := by
  have ht := traverseOpt_isSome (renderComponent order) r.components
    (fun comp hc => renderComponent_isSome order comp (h comp hc))
  simp only [generateSimpleMarkdown]
  cases hT : traverseOpt (renderComponent order) r.components with
  | none => rw [hT] at ht; simp at ht
  | some ls => simp

theorem releasedShortShas_isSome (r : AggregatedRelease)
    (h : ∀ comp ∈ r.components, ∀ c ∈ comp.status.commitsOf,
      7 ≤ c.sha.toList.length) :
    (releasedShortShas r).isSome := by
  have hcomp : ∀ comp ∈ r.components, (componentShortShas comp).isSome := by
    intro comp hc
    obtain ⟨repo, st⟩ := comp
    cases st with
    | Released cv pv rd commits notes stats =>
      exact traverseOpt_isSome _ commits (fun c hcm =>
        shortSha_isSome c.sha (by
          have := h ⟨repo, ComponentStatus.Released cv pv rd commits notes stats⟩
            hc c
          simpa [ComponentStatus.commitsOf] using this hcm))
    | NoRelease lv ld => simp [componentShortShas]
  have ht := traverseOpt_isSome componentShortShas r.components hcomp
  simp only [releasedShortShas]
  cases hT : traverseOpt componentShortShas r.components with
  | none => rw [hT] at ht; simp at ht
  | some ls => simp

/-- C9: rendering a document needs every released commit sha to be at least
7 characters: under that precondition both the template-data short-sha
slicing and the fallback formatter succeed, while on a document with a
3-character sha both take the panicking slice branch (`none`) instead of
returning text or an error value. -/
theorem short_sha_seven_required (r : AggregatedRelease)
    (order : List CommitType)
    (h : ∀ comp ∈ r.components, ∀ c ∈ comp.status.commitsOf,
      7 ≤ c.sha.length) :
    (generateSimpleMarkdown order r).isSome
    ∧ (releasedShortShas r).isSome
    ∧ generateSimpleMarkdown [] badDoc = none
    ∧ releasedShortShas badDoc = none := by
  refine ⟨generateSimpleMarkdown_isSome order r h,
    releasedShortShas_isSome r h, ?_, ?_⟩
  · decide
  · decide

/-- Witness for C9 at the grouped rendering scenario. -/
theorem short_sha_seven_required_witness :
    (generateSimpleMarkdown [] demoDoc8).isSome
    ∧ (releasedShortShas demoDoc8).isSome
    ∧ generateSimpleMarkdown [] badDoc = none
    ∧ releasedShortShas badDoc = none :=
  short_sha_seven_required demoDoc8 [] (by decide)

set_option maxRecDepth 100000 in
/-- C8, code evidence: the fallback formatter's grouped Changes subsections
follow the iteration order of a `std::collections::HashMap`, whose order is
seed-dependent and varies between runs; on a document whose grouped map has
the key set Feature/Fix, the two enumerations of that key set produce
different output strings, so two runs on the same document need not agree. -/
theorem fallback_markdown_order_dependent :
    typesPresent demo8Commits = [CommitType.Feature, CommitType.Fix]
    ∧ List.Perm [CommitType.Fix, CommitType.Feature]
        (typesPresent demo8Commits)
    ∧ generateSimpleMarkdown [CommitType.Feature, CommitType.Fix] demoDoc8
        ≠ generateSimpleMarkdown [CommitType.Fix, CommitType.Feature] demoDoc8 :=
  ⟨by decide, by decide, by decide⟩

/-- An elementwise-invertible encoding is inverted by list traversal. -/
theorem traverseOpt_map_rt {α β : Type} (f : α → β) (g : β → Option α)
    (h : ∀ x, g (f x) = some x) :
    ∀ l : List α, traverseOpt g (l.map f) = some l
  | [] => rfl
  | x :: rest => by
    simp [traverseOpt, h x, traverseOpt_map_rt f g h rest]

/-- A non-null elementwise-invertible encoding round-trips options. -/
theorem optJson_rt {α : Type} (f : α → Json) (g : Json → Option α)
    (hnn : ∀ x, (f x).isNull = false) (h : ∀ x, g (f x) = some x) :
    ∀ o : Option α, optFromJson g (optToJson f o) = some o
  | none => rfl
  | some x => by simp [optToJson, optFromJson, hnn x, h x]

theorem dt_rt (d : DateTime) : dtFromJson (dtToJson d) = some d := rfl

theorem ct_rt (t : CommitType) : ctFromJson (ctToJson t) = some t := by
  cases t <;> rfl

theorem enriched_rt (c : EnrichedCommit) :
    enrichedFromJson (enrichedToJson c) = some c := by
  obtain ⟨sha, message, author, date, ct, br, pr, is⟩ := c
  simp [enrichedToJson, enrichedFromJson, jGet, asObj, asStr, asBool, asArr,
    dtFromJson, dtToJson,
    traverseOpt_map_rt Json.num asNum (fun n => rfl) is,
    optJson_rt ctToJson ctFromJson (fun t => rfl) ct_rt ct,
    optJson_rt Json.num asNum (fun n => rfl) (fun n => rfl) pr]

theorem stats_rt (s : ReleaseStats) : statsFromJson (statsToJson s) = some s := by
  obtain ⟨cc, contribs, bc, ft, fx⟩ := s
  simp [statsToJson, statsFromJson, jGet, asObj, asStr, asNum, asArr,
    traverseOpt_map_rt Json.str asStr (fun x => rfl) contribs]

theorem status_rt (st : ComponentStatus) :
    statusFromJson (statusToJson st) = some st := by
  cases st with
  | Released cv pv rd commits notes stats =>
    simp [statusToJson, statusFromJson, jGet, asObj, asStr, asArr,
      dtFromJson, dtToJson, stats_rt,
      traverseOpt_map_rt enrichedToJson enrichedFromJson enriched_rt commits,
      optJson_rt Json.str asStr (fun x => rfl) (fun x => rfl) pv,
      optJson_rt Json.str asStr (fun x => rfl) (fun x => rfl) notes]
  | NoRelease lv ld =>
    simp [statusToJson, statusFromJson, jGet, asObj, asStr,
      optJson_rt Json.str asStr (fun x => rfl) (fun x => rfl) lv,
      optJson_rt dtToJson dtFromJson (fun x => rfl) dt_rt ld]

theorem component_rt (c : ComponentRelease) :
    componentFromJson (componentToJson c) = some c := by
  obtain ⟨repo, st⟩ := c
  simp [componentToJson, componentFromJson, jGet, asObj, asStr, status_rt]

theorem summary_rt (s : ReleaseSummary) :
    summaryFromJson (summaryToJson s) = some s := by
  obtain ⟨tr, ur, tc, contribs⟩ := s
  simp [summaryToJson, summaryFromJson, jGet, asObj, asNum, asArr,
    traverseOpt_map_rt Json.str asStr (fun x => rfl) contribs]

/-- C7: serializing an `AggregatedRelease` through the JSON output path
(field for field, mirroring the data model shapes) and parsing the result
back yields the original document. -/
theorem aggregated_release_json_roundtrip (r : AggregatedRelease) :
    aggregatedFromJson (aggregatedToJson r) = some r := by
  obtain ⟨v, d, comps, s⟩ := r
  simp [aggregatedToJson, aggregatedFromJson, jGet, asObj, asStr,
    dtFromJson, dtToJson, summary_rt]
  rw [show asArr (Json.arr (comps.map componentToJson))
      = some (comps.map componentToJson) from rfl]
  simp [traverseOpt_map_rt componentToJson componentFromJson component_rt comps]
